import Mathlib

/-!
Verification of the order-book reconstruction engine in src/app/page.tsx
(the sequenced implementation: the Page component and its helpers).

Modelling conventions:
- Prices and quantities are rationals.  The implementation stores price
  levels in a JS Map keyed by the price string of the feed and parses the
  string at use sites; per symbol the feed emits each price in one fixed
  format, so a price string is identified with its numeric value here and
  a book side becomes an insertion-ordered association list.  Rationals
  have no non-finite values, so every isFinite check of the source is
  identically true in the model.
- Update ids are naturals, JS timers and network calls are modelled by
  the data they deliver to their completion callbacks.
-/

/-- Book side: insertion-ordered association list of (price, quantity),
the model of a JS Map from price to quantity. -/
abbrev Side := List (ℚ × ℚ)

/-- Map.set: replace the value at an existing key in place, else append. -/
def mapSet (p q : ℚ) : Side → Side
  | [] => [(p, q)]
  | e :: rest => if e.1 = p then (p, q) :: rest else e :: mapSet p q rest

/-- Map.delete: remove the entry with the given key. -/
def mapDelete (p : ℚ) (m : Side) : Side :=
  m.filter (fun e => decide (e.1 ≠ p))

/-- Map.get: value stored at the given key, if any. -/
def mapGet (p : ℚ) (m : Side) : Option ℚ :=
  (m.find? (fun e => decide (e.1 = p))).map Prod.snd

/-- No stored level has quantity zero (spec section 3 invariant). -/
def noZeroLevels (m : Side) : Prop := ∀ e ∈ m, e.2 ≠ 0

/-- The price keys of a side are pairwise distinct (a JS Map invariant). -/
def sideKeysNodup (m : Side) : Prop := (m.map Prod.fst).Nodup

/-- One price-level change of a diff event: quantity zero deletes the
level, any other quantity sets it (page.tsx lines 1267-1276). -/
def applyChange (m : Side) (c : ℚ × ℚ) : Side :=
  if c.2 = 0 then mapDelete c.1 m else mapSet c.1 c.2 m

/-- Fold a list of changes over a side, in feed order. -/
def applyChanges (cs : List (ℚ × ℚ)) (m : Side) : Side :=
  cs.foldl applyChange m

/-- Binance depth diff event (fields U, u, b, a of BinanceDepthUpdate). -/
structure DiffEvent where
  U : ℕ
  u : ℕ
  b : List (ℚ × ℚ)
  a : List (ℚ × ℚ)
deriving DecidableEq

/-- The refs holding book and sequencing state: bidsRef, asksRef,
lastUpdateIdRef, bufferRef, readyRef (page.tsx lines 1011-1015). -/
structure EngineState where
  bids : Side
  asks : Side
  lastUpdateId : ℕ
  buffer : List DiffEvent
  ready : Bool
deriving DecidableEq

/-- The four ways applyDepth can treat an incoming diff event. -/
inductive Outcome where
  | Buffered
  | Discarded
  | ResyncRequired
  | Applied
deriving DecidableEq

/-- Result of applyDepth: the classification, the state afterwards, and
whether a snapshot refetch was triggered (the loadSnapshot call in the
resync branch). -/
structure ApplyResult where
  outcome : Outcome
  state : EngineState
  triggersSnapshotFetch : Bool
deriving DecidableEq

/-- applyDepth (page.tsx lines 1248-1280): buffer while not ready, drop
stale events, resync on a gap, otherwise merge and advance. -/
def applyDepth (ev : DiffEvent) (st : EngineState) : ApplyResult :=
  if st.ready = false then
    ⟨.Buffered, { st with buffer := st.buffer ++ [ev] }, false⟩
  else if ev.u ≤ st.lastUpdateId then
    ⟨.Discarded, st, false⟩
  else if st.lastUpdateId + 1 < ev.U then
    ⟨.ResyncRequired, { st with ready := false, buffer := [] }, true⟩
  else
    ⟨.Applied,
      { st with
        bids := applyChanges ev.b st.bids,
        asks := applyChanges ev.a st.asks,
        lastUpdateId := ev.u },
      false⟩

/-- Parsed body of the REST depth snapshot (page.tsx line 1176). -/
structure DepthSnapshot where
  lastUpdateId : ℕ
  bids : List (ℚ × ℚ)
  asks : List (ℚ × ℚ)
deriving DecidableEq

/-- Populate a cleared side from snapshot entries, keeping only positive
quantities (page.tsx lines 1183-1190). -/
def loadLevels (entries : List (ℚ × ℚ)) : Side :=
  entries.foldl (fun m e => if 0 < e.2 then mapSet e.1 e.2 m else m) []

/-- Outcome of one completed snapshot reconcile: either the session is
ready, or a mid-replay gap forced a fresh snapshot fetch. -/
inductive ReconcileResult where
  | Ready (st : EngineState)
  | Refetch (st : EngineState)
deriving DecidableEq

/-- State carried by either reconcile outcome. -/
def reconcileState : ReconcileResult → EngineState
  | .Ready st => st
  | .Refetch st => st

/-- Comparator of the buffer sort in loadSnapshot: ascending firstUpdateId
(page.tsx line 1196). -/
def depthBufLe (x y : DiffEvent) : Bool := decide (x.U ≤ y.U)

/-- Bridging predicate of the reconcile (page.tsx lines 1197-1199):
U less-or-equal seq+1 less-or-equal u. -/
def bridges (seq : ℕ) (ev : DiffEvent) : Bool :=
  decide (ev.U ≤ seq + 1 ∧ seq + 1 ≤ ev.u)

/-- Fallback predicate of the reconcile (page.tsx line 1203): the event
final id reaches the snapshot sequence id. -/
def fallbackPick (seq : ℕ) (ev : DiffEvent) : Bool :=
  decide (seq ≤ ev.u)

/-- The replay loop of loadSnapshot (page.tsx lines 1213-1234): apply the
chosen suffix of the sorted buffer in order, forcing a resync on any
event whose firstUpdateId leaves a gap. -/
def replayBuffered : EngineState → List DiffEvent → ReconcileResult
  | st, [] => .Ready { st with buffer := [], ready := true }
  | st, ev :: rest =>
    if st.lastUpdateId + 1 < ev.U then
      .Refetch { st with buffer := [], ready := false }
    else
      replayBuffered
        { st with
          bids := applyChanges ev.b st.bids,
          asks := applyChanges ev.a st.asks,
          lastUpdateId := ev.u } rest

/-- The state-mutating part of a completed snapshot fetch (page.tsx lines
1180-1238): replace both sides, adopt the snapshot sequence id, then
reconcile the buffered diffs. -/
def loadSnapshot (snap : DepthSnapshot) (st : EngineState) : ReconcileResult :=
  let st1 : EngineState :=
    { st with
      bids := loadLevels snap.bids,
      asks := loadLevels snap.asks,
      lastUpdateId := snap.lastUpdateId }
  let buf := st1.buffer.mergeSort depthBufLe
  match buf.findIdx? (bridges st1.lastUpdateId) with
  | some idx => replayBuffered st1 (buf.drop idx)
  | none =>
    match buf.findIdx? (fallbackPick st1.lastUpdateId) with
    | none => .Ready { st1 with buffer := [], ready := true }
    | some idx => replayBuffered st1 (buf.drop idx)

/-- Display row of the processed book (interface OrderBookLevel). -/
structure OrderBookLevel where
  price : ℚ
  amount : ℚ
  total : ℚ
deriving DecidableEq

/-- The published projection (interface ProcessedOrderBook). -/
structure ProcessedOrderBook where
  bids : List OrderBookLevel
  asks : List OrderBookLevel
  maxBidTotal : ℚ
  maxAskTotal : ℚ
  spread : ℚ
  spreadPercent : ℚ
  midPrice : ℚ
deriving DecidableEq

/-- The all-empty projection emitted by every degraded branch of
flushView (page.tsx lines 1037-1045, 1072-1080, 1089-1097). -/
def emptyProcessed : ProcessedOrderBook :=
  ⟨[], [], 1, 1, 0, 0, 0⟩

/-- The quote-only projection of the bookTicker fallback (page.tsx lines
1057-1069): empty rows, spread and mid from the cached best quote. -/
def quoteFallback (bid ask : ℚ) : ProcessedOrderBook :=
  let spread := ask - bid
  let mid := (ask + bid) / 2
  let spreadPercent := if 0 < mid then spread / mid * 100 else 0
  ⟨[], [], 1, 1, spread, spreadPercent, mid⟩

/-- Math.max over the parsed prices of a non-empty side (page.tsx line
1050); zero on an empty list, unused there. -/
def listMax : List ℚ → ℚ
  | [] => 0
  | x :: xs => xs.foldl max x

/-- Math.min over the parsed prices of a non-empty side (line 1051). -/
def listMin : List ℚ → ℚ
  | [] => 0
  | x :: xs => xs.foldl min x

/-- Best bid: maximal price key of the bid side. -/
def bestBidOf (m : Side) : ℚ := listMax (m.map Prod.fst)

/-- Best ask: minimal price key of the ask side. -/
def bestAskOf (m : Side) : ℚ := listMin (m.map Prod.fst)

/-- Spread percent of the main path (page.tsx line 1086): guarded by mid
greater than zero, else zero. -/
def spreadPercentOf (bestBid bestAsk : ℚ) : ℚ :=
  let mid := (bestAsk + bestBid) / 2
  if 0 < mid then (bestAsk - bestBid) / mid * 100 else 0

/-- The bid window of flushView (page.tsx lines 1102-1105): wide filter
around the best bid, numeric sort descending, slice to the row count. -/
def sortedBids (bids : Side) (bestBid : ℚ) (n : ℕ) : List (ℚ × ℚ) :=
  ((bids.filter (fun e => decide (bestBid - 1000000 ≤ e.1))).mergeSort
    (fun x y => decide (y.1 ≤ x.1))).take n

/-- The ask window of flushView (page.tsx lines 1107-1110): wide filter
around the best ask, numeric sort ascending, slice to the row count. -/
def sortedAsks (asks : Side) (bestAsk : ℚ) (n : ℕ) : List (ℚ × ℚ) :=
  ((asks.filter (fun e => decide (e.1 ≤ bestAsk + 1000000))).mergeSort
    (fun x y => decide (x.1 ≤ y.1))).take n

/-- Running cumulative totals down a side (page.tsx lines 1112-1126). -/
def cumRows (acc : ℚ) : List (ℚ × ℚ) → List OrderBookLevel
  | [] => []
  | e :: rest => ⟨e.1, e.2, acc + e.2⟩ :: cumRows (acc + e.2) rest

/-- Total of the last row, defaulting to 1 when there is none: the
expression rows[rows.length-1]?.total ?? 1 (page.tsx lines 1131-1132). -/
def lastTotalOrOne (rows : List OrderBookLevel) : ℚ :=
  match rows.getLast? with
  | some r => r.total
  | none => 1

/-- flushView (page.tsx lines 1030-1137): build the published projection
from the two sides, the cached bookTicker quote and the row count. -/
def flushView (bids asks : Side) (tickerBid tickerAsk : ℚ) (n : ℕ) :
    ProcessedOrderBook :=
  if bids.length = 0 ∨ asks.length = 0 then emptyProcessed
  else
    let bestBid := bestBidOf bids
    let bestAsk := bestAskOf asks
    let spread := bestAsk - bestBid
    if spread ≤ 0 then
      if tickerBid < tickerAsk then quoteFallback tickerBid tickerAsk
      else emptyProcessed
    else
      let midPrice := (bestAsk + bestBid) / 2
      let spreadPercent := spreadPercentOf bestBid bestAsk
      if 10 < spreadPercent then emptyProcessed
      else
        let bidRows := cumRows 0 (sortedBids bids bestBid n)
        let askRows := cumRows 0 (sortedAsks asks bestAsk n)
        ⟨bidRows, askRows, lastTotalOrOne bidRows, lastTotalOrOne askRows,
          spread, spreadPercent, midPrice⟩

/-- Depth percentage of OrderRow (page.tsx line 912), guarded against a
non-positive maxTotal. -/
def orderRowPercentage (total maxTotal : ℚ) : ℚ :=
  if 0 < maxTotal then total / maxTotal * 100 else 0

/-- A recent trade (interface Trade). -/
structure Trade where
  id : ℕ
  price : ℚ
  quantity : ℚ
  time : ℕ
  isBuyerMaker : Bool
  isNew : Bool
deriving DecidableEq

/-- Prepend a trade and keep at most the first 49 previous entries: the
update [trade, ...prev.slice(0, 49)] (page.tsx line 1344). -/
def pushTrade (t : Trade) (l : List Trade) : List Trade :=
  t :: l.take 49

/-- The delayed flash clear (page.tsx lines 1345-1349): reset isNew on
every entry carrying the pushed trade id, leaving the rest untouched. -/
def clearNew (i : ℕ) (l : List Trade) : List Trade :=
  l.map (fun x => if x.id = i then { x with isNew := false } else x)

/-- The fixed flash delay in milliseconds (page.tsx line 1349). -/
def tradeFlashDelayMs : ℕ := 300

/-- A trade-list mutation: a push from the trade stream or a scheduled
flash clear firing. -/
inductive TradeOp where
  | push (t : Trade)
  | clear (i : ℕ)

/-- Run one trade-list mutation. -/
def runTradeOp (l : List Trade) : TradeOp → List Trade
  | .push t => pushTrade t l
  | .clear i => clearNew i l

/-- Parsed aggTrade payload (fields a, p, q, T, m of BinanceTradeUpdate). -/
structure TradePayload where
  a : ℕ
  p : ℚ
  q : ℚ
  T : ℕ
  m : Bool
deriving DecidableEq

/-- Parsed bookTicker payload (fields b and a of BookTickerUpdate). -/
structure BookTickerPayload where
  b : ℚ
  a : ℚ
deriving DecidableEq

/-- The whole mutable state visible to the socket callbacks: the current
session generation (sessionRef), the engine refs, the trade list, the
cached best quote, the metric counters and the per-channel reconnect
timers (page.tsx lines 982-1023). -/
structure FullState where
  session : ℕ
  engine : EngineState
  trades : List Trade
  tickerBid : ℚ
  tickerAsk : ℚ
  msgCounter : ℕ
  updateCount : ℕ
  reconnects : ℕ
  connected : Bool
  lastUpdate : Option ℕ
  depthTimerSet : Bool
  tradesTimerSet : Bool
  tickerTimerSet : Bool
deriving DecidableEq

/-- Depth stream onmessage (page.tsx lines 1293-1304): drop stale
sessions, bump counters, then sequence the parsed event; a parse failure
(none) only bumps the counters. -/
def onDepthMessage (session now : ℕ) (msg : Option DiffEvent)
    (st : FullState) : FullState :=
  if session ≠ st.session then st
  else
    let st1 := { st with
      msgCounter := st.msgCounter + 1,
      lastUpdate := some now,
      updateCount := st.updateCount + 1 }
    match msg with
    | none => st1
    | some ev => { st1 with engine := (applyDepth ev st1.engine).state }

/-- Trade stream onmessage (page.tsx lines 1328-1355): drop stale
sessions, bump counters, push the parsed trade with isNew set. -/
def onTradeMessage (session now : ℕ) (msg : Option TradePayload)
    (st : FullState) : FullState :=
  if session ≠ st.session then st
  else
    let st1 := { st with
      msgCounter := st.msgCounter + 1,
      lastUpdate := some now,
      updateCount := st.updateCount + 1 }
    match msg with
    | none => st1
    | some t =>
      { st1 with trades := pushTrade ⟨t.a, t.p, t.q, t.T, t.m, true⟩ st1.trades }

/-- BookTicker onmessage (page.tsx lines 1373-1383): drop stale sessions,
bump the message counter, cache the quote. -/
def onTickerMessage (session : ℕ) (msg : Option BookTickerPayload)
    (st : FullState) : FullState :=
  if session ≠ st.session then st
  else
    let st1 := { st with msgCounter := st.msgCounter + 1 }
    match msg with
    | none => st1
    | some t => { st1 with tickerBid := t.b, tickerAsk := t.a }

/-- Depth stream onclose (page.tsx lines 1310-1318): drop stale sessions,
mark disconnected, count the reconnect, schedule the reopen timer. -/
def onDepthClose (session : ℕ) (st : FullState) : FullState :=
  if session ≠ st.session then st
  else { st with
    connected := false,
    reconnects := st.reconnects + 1,
    depthTimerSet := true }

/-- Trade stream onclose (page.tsx lines 1357-1363): drop stale sessions,
schedule the reopen timer. -/
def onTradesClose (session : ℕ) (st : FullState) : FullState :=
  if session ≠ st.session then st
  else { st with tradesTimerSet := true }

/-- BookTicker onclose (page.tsx lines 1385-1391): drop stale sessions,
schedule the reopen timer. -/
def onTickerClose (session : ℕ) (st : FullState) : FullState :=
  if session ≠ st.session then st
  else { st with tickerTimerSet := true }

/-- Completion of the snapshot fetch (page.tsx lines 1172-1245): the
session guard sits right after the response is parsed, before any
mutation; a fetch failure only schedules a session-gated retry. -/
def onSnapshotResponse (session : ℕ) (msg : Option DepthSnapshot)
    (st : FullState) : FullState :=
  match msg with
  | none => st
  | some snap =>
    if session ≠ st.session then st
    else { st with engine := reconcileState (loadSnapshot snap st.engine) }

/-- Cumulative-total discipline of a row list: the first total equals the
first amount and every later total adds its own amount to the previous
total (spec section 4.5 step 7). -/
def cumulativeOk : ℚ → List OrderBookLevel → Prop
  | _, [] => True
  | acc, r :: rest => r.total = acc + r.amount ∧ cumulativeOk r.total rest

/-! ## Shared lemmas about the map operations -/

lemma find?_mapDelete_self (p : ℚ) (m : Side) :
    (mapDelete p m).find? (fun e => decide (e.1 = p)) = none := by
  rw [List.find?_eq_none]
  intro x hx
  simp only [mapDelete, List.mem_filter, decide_eq_true_eq] at hx
  simp [hx.2]

lemma mapGet_mapDelete_self (p : ℚ) (m : Side) :
    mapGet p (mapDelete p m) = none := by
  simp [mapGet, find?_mapDelete_self]

lemma mapGet_mapSet_self (p q : ℚ) (m : Side) :
    mapGet p (mapSet p q m) = some q := by
  induction m with
  | nil => simp [mapSet, mapGet, List.find?]
  | cons e rest ih =>
    by_cases h : e.1 = p
    · simp [mapSet, h, mapGet, List.find?]
    · simp only [mapSet, if_neg h]
      simpa [mapGet, List.find?_cons, h] using ih

lemma noZeroLevels_mapSet (p q : ℚ) (hq : q ≠ 0) {m : Side}
    (hm : noZeroLevels m) : noZeroLevels (mapSet p q m) := by
  induction m with
  | nil =>
    intro x hx
    simp only [mapSet, List.mem_singleton] at hx
    simp [hx, hq]
  | cons e rest ih =>
    intro x hx
    by_cases h : e.1 = p
    · simp only [mapSet, if_pos h, List.mem_cons] at hx
      rcases hx with hx | hx
      · simp [hx, hq]
      · exact hm x (List.mem_cons_of_mem e hx)
    · simp only [mapSet, if_neg h, List.mem_cons] at hx
      rcases hx with hx | hx
      · exact hm x (hx ▸ List.mem_cons_self e rest)
      · exact ih (fun y hy => hm y (List.mem_cons_of_mem e hy)) x hx

lemma noZeroLevels_mapDelete (p : ℚ) {m : Side} (hm : noZeroLevels m) :
    noZeroLevels (mapDelete p m) :=
  fun x hx => hm x (List.mem_of_mem_filter hx)

lemma noZeroLevels_applyChange {m : Side} (c : ℚ × ℚ)
    (hm : noZeroLevels m) : noZeroLevels (applyChange m c) := by
  unfold applyChange
  split
  · exact noZeroLevels_mapDelete _ hm
  · exact noZeroLevels_mapSet _ _ (by assumption) hm

lemma noZeroLevels_applyChanges (cs : List (ℚ × ℚ)) {m : Side}
    (hm : noZeroLevels m) : noZeroLevels (applyChanges cs m) := by
  induction cs generalizing m with
  | nil => simpa [applyChanges]
  | cons c rest ih =>
    simpa [applyChanges, List.foldl_cons] using
      ih (noZeroLevels_applyChange c hm)

lemma noZeroLevels_loadLevels_aux (entries : List (ℚ × ℚ)) :
    ∀ m : Side, noZeroLevels m →
      noZeroLevels (entries.foldl
        (fun m e => if 0 < e.2 then mapSet e.1 e.2 m else m) m) := by
  induction entries with
  | nil => intro m hm; simpa
  | cons e rest ih =>
    intro m hm
    simp only [List.foldl_cons]
    apply ih
    split
    · exact noZeroLevels_mapSet _ _ (by positivity) hm
    · exact hm

lemma noZeroLevels_loadLevels (entries : List (ℚ × ℚ)) :
    noZeroLevels (loadLevels entries) :=
  noZeroLevels_loadLevels_aux entries [] (by intro x hx; cases hx)

lemma noZeroLevels_replayBuffered (evs : List DiffEvent) :
    ∀ st : EngineState, noZeroLevels st.bids → noZeroLevels st.asks →
      noZeroLevels (reconcileState (replayBuffered st evs)).bids ∧
      noZeroLevels (reconcileState (replayBuffered st evs)).asks := by
  induction evs with
  | nil =>
    intro st hb ha
    exact ⟨hb, ha⟩
  | cons ev rest ih =>
    intro st hb ha
    simp only [replayBuffered]
    split
    · exact ⟨hb, ha⟩
    · exact ih _ (noZeroLevels_applyChanges ev.b hb)
        (noZeroLevels_applyChanges ev.a ha)

/-! ## C1 -/

/-- C1: applyDepth classifies every incoming diff into exactly one of the
four outcomes, with the stated condition and effect in each case: not
ready appends to the pending buffer (Buffered); a final id at or below
the last applied id is a no-op (Discarded); a first id beyond last+1
marks not-ready, clears the buffer and triggers a snapshot refetch
(ResyncRequired); otherwise the changes are merged and the last applied
id advances to the final id, with firstUpdateId at most
lastAppliedUpdateId+1 at most finalUpdateId (Applied). -/
theorem applyDepth_classification (ev : DiffEvent) (st : EngineState) :
    (st.ready = false →
      applyDepth ev st =
        ⟨.Buffered, { st with buffer := st.buffer ++ [ev] }, false⟩)
    ∧ (st.ready = true → ev.u ≤ st.lastUpdateId →
      applyDepth ev st = ⟨.Discarded, st, false⟩)
    ∧ (st.ready = true → st.lastUpdateId < ev.u →
        st.lastUpdateId + 1 < ev.U →
      applyDepth ev st =
        ⟨.ResyncRequired, { st with ready := false, buffer := [] }, true⟩)
    ∧ (st.ready = true → st.lastUpdateId < ev.u →
        ev.U ≤ st.lastUpdateId + 1 →
      applyDepth ev st =
        ⟨.Applied,
          { st with
            bids := applyChanges ev.b st.bids,
            asks := applyChanges ev.a st.asks,
            lastUpdateId := ev.u }, false⟩
      ∧ ev.U ≤ st.lastUpdateId + 1 ∧ st.lastUpdateId + 1 ≤ ev.u) := by
  refine ⟨fun h => ?_, fun h h2 => ?_, fun h h2 h3 => ?_, fun h h2 h3 => ?_⟩
  · simp [applyDepth, h]
  · simp [applyDepth, h, h2]
  · unfold applyDepth
    rw [if_neg (by simp [h]), if_neg (by omega), if_pos h3]
  · unfold applyDepth
    rw [if_neg (by simp [h]), if_neg (by omega), if_neg (by omega)]
    exact ⟨rfl, h3, by omega⟩

/-- Witness for C1: a gapped diff at a ready state yields ResyncRequired
with cleared buffer and a triggered refetch, and a bridging diff at the
same state is Applied with the last id advanced to its final id. -/
theorem applyDepth_classification_witness :
    applyDepth ⟨105, 110, [], []⟩ ⟨[], [], 100, [], true⟩ =
      ⟨.ResyncRequired, ⟨[], [], 100, [], false⟩, true⟩
    ∧ applyDepth ⟨101, 102, [((99 : ℚ), (2 : ℚ))], []⟩ ⟨[], [], 100, [], true⟩ =
      ⟨.Applied,
        ⟨applyChanges [((99 : ℚ), (2 : ℚ))] [], applyChanges [] [], 102, [], true⟩,
        false⟩ := by
  constructor
  · exact (applyDepth_classification _ _).2.2.1 rfl (by decide) (by decide)
  · exact ((applyDepth_classification _ _).2.2.2 rfl (by decide) (by decide)).1

/-! ## C4 -/

/-- C4 counterexample: loading a snapshot assigns lastAppliedUpdateId the
snapshot sequence id unconditionally, so a snapshot older than the
applied state lowers it from 200 to 100 within one session, refuting the
claim that every assignment leaves it at or above its previous value. -/
theorem loadSnapshot_can_lower_lastUpdateId :
    (⟨[], [], 200, [], false⟩ : EngineState).lastUpdateId = 200
    ∧ (reconcileState
        (loadSnapshot ⟨100, [], []⟩ ⟨[], [], 200, [], false⟩)).lastUpdateId = 100
    ∧ (100 : ℕ) < 200 := by
  refine ⟨rfl, ?_, by decide⟩
  simp [loadSnapshot, reconcileState, loadLevels, List.mergeSort_nil]

/-- C4 amended: within a session, live diff application (applyDepth)
never lowers lastAppliedUpdateId: Buffered, Discarded and ResyncRequired
leave it unchanged and Applied raises it to the event final id; snapshot
load, by contrast, assigns the snapshot sequence id unconditionally and
so carries no such guarantee. -/
theorem applyDepth_lastUpdateId_monotone (ev : DiffEvent) (st : EngineState) :
    st.lastUpdateId ≤ (applyDepth ev st).state.lastUpdateId := by
  unfold applyDepth
  split
  · simp
  · split
    · simp
    · split
      · simp
      · simp only
        omega

/-! ## C7 -/

/-- C7: no side ever stores a zero-quantity level: a zero-quantity change
removes the price (its lookup is then absent), a non-zero change sets it,
snapshot population inserts only positive quantities, and the
no-zero-level invariant is preserved by every diff application
(applyDepth) and every completed snapshot load including its buffered
replay. -/
theorem book_no_zero_quantity_levels :
    (∀ (p : ℚ) (m : Side), mapGet p (applyChange m (p, 0)) = none)
    ∧ (∀ (p q : ℚ) (m : Side), q ≠ 0 → mapGet p (applyChange m (p, q)) = some q)
    ∧ (∀ (cs : List (ℚ × ℚ)) (m : Side), noZeroLevels m →
        noZeroLevels (applyChanges cs m))
    ∧ (∀ entries : List (ℚ × ℚ), noZeroLevels (loadLevels entries))
    ∧ (∀ (ev : DiffEvent) (st : EngineState),
        noZeroLevels st.bids → noZeroLevels st.asks →
        noZeroLevels (applyDepth ev st).state.bids ∧
        noZeroLevels (applyDepth ev st).state.asks)
    ∧ (∀ (snap : DepthSnapshot) (st : EngineState),
        noZeroLevels (reconcileState (loadSnapshot snap st)).bids ∧
        noZeroLevels (reconcileState (loadSnapshot snap st)).asks) := by
  refine ⟨?_, ?_, ?_, ?_, ?_, ?_⟩
  · intro p m
    simp [applyChange, mapGet_mapDelete_self]
  · intro p q m hq
    simp [applyChange, hq, mapGet_mapSet_self]
  · intro cs m hm
    exact noZeroLevels_applyChanges cs hm
  · exact noZeroLevels_loadLevels
  · intro ev st hb ha
    unfold applyDepth
    split
    · exact ⟨hb, ha⟩
    · split
      · exact ⟨hb, ha⟩
      · split
        · exact ⟨hb, ha⟩
        · exact ⟨noZeroLevels_applyChanges ev.b hb,
            noZeroLevels_applyChanges ev.a ha⟩
  · intro snap st
    simp only [loadSnapshot]
    split
    · exact noZeroLevels_replayBuffered _ _
        (noZeroLevels_loadLevels snap.bids) (noZeroLevels_loadLevels snap.asks)
    · split
      · exact ⟨noZeroLevels_loadLevels snap.bids, noZeroLevels_loadLevels snap.asks⟩
      · exact noZeroLevels_replayBuffered _ _
          (noZeroLevels_loadLevels snap.bids) (noZeroLevels_loadLevels snap.asks)

/-- Witness for C7: a zero-quantity change removes a stored level, a
non-zero change is visible, and a book with no zero levels keeps that
property through a concrete change list. -/
theorem book_no_zero_quantity_levels_witness :
    mapGet 100 (applyChange [((100 : ℚ), (5 : ℚ))] (100, 0)) = none
    ∧ mapGet 100 (applyChange [] ((100 : ℚ), (5 : ℚ))) = some 5
    ∧ noZeroLevels (applyChanges [((100 : ℚ), (5 : ℚ)), (100, 0)] [((99 : ℚ), (1 : ℚ))]) := by
  refine ⟨book_no_zero_quantity_levels.1 100 _, ?_, ?_⟩
  · exact book_no_zero_quantity_levels.2.1 100 5 [] (by decide)
  · exact book_no_zero_quantity_levels.2.2.1 _ _ (by simp [noZeroLevels])

/-! ## C8 -/

/-- C8: a completion carrying a stale session generation is a complete
no-op: every stream message handler, every close handler and the
snapshot response leave the whole state, the order book, the trade list
and the sequencing state included, exactly as they found it. -/
theorem stale_completion_is_noop (s now : ℕ) (st : FullState)
    (h : s ≠ st.session) (msgD : Option DiffEvent)
    (msgT : Option TradePayload) (msgQ : Option BookTickerPayload)
    (snap : DepthSnapshot) :
    onDepthMessage s now msgD st = st
    ∧ onTradeMessage s now msgT st = st
    ∧ onTickerMessage s msgQ st = st
    ∧ onDepthClose s st = st
    ∧ onTradesClose s st = st
    ∧ onTickerClose s st = st
    ∧ onSnapshotResponse s (some snap) st = st := by
  unfold onDepthMessage onTradeMessage onTickerMessage onDepthClose
    onTradesClose onTickerClose onSnapshotResponse
  simp [h]

/-- Witness for C8: a stale generation 1 against a current generation 2
leaves a concrete state untouched across all seven completions. -/
theorem stale_completion_is_noop_witness :
    onDepthMessage 1 7 (some ⟨1, 2, [], []⟩)
        ⟨2, ⟨[], [], 0, [], false⟩, [], 0, 0, 0, 0, 0, false, none, false, false, false⟩ =
      ⟨2, ⟨[], [], 0, [], false⟩, [], 0, 0, 0, 0, 0, false, none, false, false, false⟩
    ∧ onSnapshotResponse 1 (some ⟨5, [], []⟩)
        ⟨2, ⟨[], [], 0, [], false⟩, [], 0, 0, 0, 0, 0, false, none, false, false, false⟩ =
      ⟨2, ⟨[], [], 0, [], false⟩, [], 0, 0, 0, 0, 0, false, none, false, false, false⟩ := by
  have h := stale_completion_is_noop 1 7
    ⟨2, ⟨[], [], 0, [], false⟩, [], 0, 0, 0, 0, 0, false, none, false, false, false⟩
    (by decide) (some ⟨1, 2, [], []⟩) none none ⟨5, [], []⟩
  exact ⟨h.1, h.2.2.2.2.2.2⟩

/-! ## C9 -/

lemma runTradeOp_length_le (ops : List TradeOp) :
    ∀ l : List Trade, l.length ≤ 50 → (ops.foldl runTradeOp l).length ≤ 50 := by
  induction ops with
  | nil => intro l hl; simpa
  | cons op rest ih =>
    intro l hl
    simp only [List.foldl_cons]
    apply ih
    cases op with
    | push t =>
      simp only [runTradeOp, pushTrade, List.length_cons, List.length_take]
      omega
    | clear i =>
      simp only [runTradeOp, clearNew, List.length_map]
      exact hl

/-- C9: the trade list stays at no more than 50 entries under any
sequence of pushes and flash clears from the empty list; a push prepends
the new trade (built with isNew true by the trade handler) and keeps only
the first 49 previous entries; a flash clear resets isNew exactly on the
entries carrying its trade id, leaves every other trade untouched,
commutes with pushes of other ids and with other clears, and fires after
the fixed 300 ms delay. -/
theorem tradeFeed_cap_and_flash :
    (∀ ops : List TradeOp, (ops.foldl runTradeOp []).length ≤ 50)
    ∧ (∀ (t : Trade) (l : List Trade), pushTrade t l = t :: l.take 49)
    ∧ (∀ (i : ℕ) (l : List Trade) (x : Trade),
        x ∈ clearNew i l → x.id = i → x.isNew = false)
    ∧ (∀ (i : ℕ) (l : List Trade) (x : Trade),
        x ∈ l → x.id ≠ i → x ∈ clearNew i l)
    ∧ (∀ (i : ℕ) (t : Trade) (l : List Trade), t.id ≠ i →
        clearNew i (pushTrade t l) = pushTrade t (clearNew i l))
    ∧ (∀ (i j : ℕ) (l : List Trade),
        clearNew i (clearNew j l) = clearNew j (clearNew i l))
    ∧ (∀ (s now : ℕ) (tp : TradePayload) (st : FullState), s = st.session →
        (onTradeMessage s now (some tp) st).trades =
          pushTrade ⟨tp.a, tp.p, tp.q, tp.T, tp.m, true⟩ st.trades)
    ∧ tradeFlashDelayMs = 300 := by
  refine ⟨fun ops => runTradeOp_length_le ops [] (by simp), fun t l => rfl,
    ?_, ?_, ?_, ?_, ?_, rfl⟩
  · intro i l x hx hid
    simp only [clearNew, List.mem_map] at hx
    obtain ⟨y, _, hy⟩ := hx
    by_cases h : y.id = i
    · simp [← hy, h]
    · exact absurd (hy ▸ hid) (by simp [← hy, h])
  · intro i l x hx hne
    exact List.mem_map.mpr ⟨x, hx, by simp [hne]⟩
  · intro i t l hne
    simp [clearNew, pushTrade, List.map_take, hne]
  · intro i j l
    simp only [clearNew, List.map_map]
    apply List.map_congr_left
    intro x _
    simp only [Function.comp_apply]
    split_ifs <;> simp_all
  · intro s now tp st h
    simp [onTradeMessage, h]

/-- Witness for C9: a clear of id 2 commutes with a push of id 1, and a
trade of another id survives a clear untouched. -/
theorem tradeFeed_cap_and_flash_witness :
    clearNew 2 (pushTrade ⟨1, 50, 1, 0, false, true⟩ [⟨2, 51, 1, 0, true, true⟩]) =
      pushTrade ⟨1, 50, 1, 0, false, true⟩ (clearNew 2 [⟨2, 51, 1, 0, true, true⟩])
    ∧ (⟨1, 50, 1, 0, false, true⟩ : Trade) ∈ clearNew 2 [⟨1, 50, 1, 0, false, true⟩] := by
  constructor
  · exact tradeFeed_cap_and_flash.2.2.2.2.1 2 _ _ (by decide)
  · exact tradeFeed_cap_and_flash.2.2.2.1 2 _ _ (by decide) (by decide)

/-! ## C2 -/

/-- C2 counterexample: snapshot at sequence id 100 with a single buffered
diff spanning 105..110 (no bridging event; the fallback event, since 110
is at least 100).  The claim says the fallback replay does not detect the
gap between the snapshot baseline and firstUpdateId 105; the code
detects it: the replay loop rejects the event (105 exceeds 100+1), clears
the buffer, marks the session not ready and refetches, and the event is
never applied. -/
theorem reconcile_fallback_gap_counterexample :
    loadSnapshot ⟨100, [((100 : ℚ), (1 : ℚ))], [((101 : ℚ), (1 : ℚ))]⟩
        ⟨[], [], 0, [⟨105, 110, [], []⟩], false⟩ =
      .Refetch ⟨[((100 : ℚ), (1 : ℚ))], [((101 : ℚ), (1 : ℚ))], 100, [], false⟩ := by
  simp [loadSnapshot, loadLevels, mapSet, List.mergeSort_singleton,
    List.findIdx?_cons, List.findIdx?_nil, bridges, fallbackPick,
    replayBuffered]

/-- C2 amended: reconcile sorts the buffered diffs by firstUpdateId and
looks for a bridging event; when none exists it replays from the first
buffered event whose finalUpdateId is at least the snapshot sequence id,
and the replay loop checks continuity for every replayed event, that
first one included, so a gap between the snapshot baseline and that
event triggers a resync (not-ready, cleared buffer, refetch) rather than
going undetected. -/
theorem reconcile_fallback_checks_continuity (snap : DepthSnapshot)
    (st : EngineState) (j : ℕ)
    (hnb : (st.buffer.mergeSort depthBufLe).findIdx?
        (bridges snap.lastUpdateId) = none)
    (hfb : (st.buffer.mergeSort depthBufLe).findIdx?
        (fallbackPick snap.lastUpdateId) = some j)
    (hj : j < (st.buffer.mergeSort depthBufLe).length)
    (hgap : snap.lastUpdateId + 1 <
        ((st.buffer.mergeSort depthBufLe).get ⟨j, hj⟩).U) :
    (st.buffer.mergeSort depthBufLe).Pairwise (fun x y => x.U ≤ y.U)
    ∧ (st.buffer.mergeSort depthBufLe).Perm st.buffer
    ∧ (∀ k (hk : k < j),
        fallbackPick snap.lastUpdateId
          ((st.buffer.mergeSort depthBufLe).get ⟨k, Nat.lt_trans hk hj⟩) = false)
    ∧ loadSnapshot snap st =
        .Refetch { st with
          bids := loadLevels snap.bids,
          asks := loadLevels snap.asks,
          lastUpdateId := snap.lastUpdateId,
          buffer := [],
          ready := false } := by
  refine ⟨?_, List.mergeSort_perm st.buffer depthBufLe, ?_, ?_⟩
  · have h := @List.sorted_mergeSort DiffEvent depthBufLe
      (fun a b c hab hbc => by
        simp only [depthBufLe, decide_eq_true_eq] at *; omega)
      (fun a b => by
        simp only [depthBufLe, Bool.or_eq_true, decide_eq_true_eq]; omega)
      st.buffer
    exact h.imp (fun hab => by
      simpa only [depthBufLe, decide_eq_true_eq] using hab)
  · intro k hk
    obtain ⟨hlen, hidx⟩ := List.findIdx?_eq_some_iff_findIdx_eq.mp hfb
    have := List.not_of_lt_findIdx
      (show k < List.findIdx (fallbackPick snap.lastUpdateId)
        (st.buffer.mergeSort depthBufLe) by omega)
    simpa [List.get_eq_getElem] using this
  · have hdrop : (st.buffer.mergeSort depthBufLe).drop j =
        (st.buffer.mergeSort depthBufLe).get ⟨j, hj⟩ ::
          (st.buffer.mergeSort depthBufLe).drop (j + 1) := by
      rw [List.get_eq_getElem]
      exact List.drop_eq_getElem_cons hj
    simp only [loadSnapshot, hnb, hfb]
    rw [hdrop]
    simp only [replayBuffered]
    rw [if_pos hgap]

/-- Witness for C2: at the concrete no-bridge state the amended theorem
applies with fallback index 0 and yields the resync outcome. -/
theorem reconcile_fallback_checks_continuity_witness :
    loadSnapshot ⟨100, [], []⟩ ⟨[], [], 0, [⟨105, 110, [], []⟩], false⟩ =
      .Refetch ⟨loadLevels [], loadLevels [], 100, [], false⟩ := by
  have h := reconcile_fallback_checks_continuity ⟨100, [], []⟩
    ⟨[], [], 0, [⟨105, 110, [], []⟩], false⟩ 0
    (by simp [List.mergeSort_singleton, List.findIdx?_cons, List.findIdx?_nil,
      bridges])
    (by simp [List.mergeSort_singleton, List.findIdx?_cons, fallbackPick])
    (by simp [List.mergeSort_singleton])
    (by simp [List.mergeSort_singleton])
  exact h.2.2.2

/-! ## Shared lemmas about the projection pipeline -/

lemma cumRows_price_map (l : List (ℚ × ℚ)) :
    ∀ acc : ℚ, (cumRows acc l).map OrderBookLevel.price = l.map Prod.fst := by
  induction l with
  | nil => intro acc; rfl
  | cons e rest ih => intro acc; simp [cumRows, ih]

lemma cumRows_mem (l : List (ℚ × ℚ)) :
    ∀ (acc : ℚ) (r : OrderBookLevel), r ∈ cumRows acc l → (r.price, r.amount) ∈ l := by
  induction l with
  | nil => intro acc r hr; cases hr
  | cons e rest ih =>
    intro acc r hr
    rcases List.mem_cons.mp hr with hr | hr
    · subst hr; simp
    · exact List.mem_cons_of_mem e (ih _ r hr)

lemma cumRows_length (l : List (ℚ × ℚ)) :
    ∀ acc : ℚ, (cumRows acc l).length = l.length := by
  induction l with
  | nil => intro acc; rfl
  | cons e rest ih => intro acc; simp [cumRows, ih]

lemma cumulativeOk_cumRows (l : List (ℚ × ℚ)) :
    ∀ acc : ℚ, cumulativeOk acc (cumRows acc l) := by
  induction l with
  | nil => intro acc; trivial
  | cons e rest ih => intro acc; exact ⟨rfl, ih (acc + e.2)⟩

lemma cumRows_total_pos (l : List (ℚ × ℚ)) :
    ∀ acc : ℚ, 0 ≤ acc → (∀ e ∈ l, 0 < e.2) →
      ∀ r ∈ cumRows acc l, 0 < r.total := by
  induction l with
  | nil => intro acc _ _ r hr; cases hr
  | cons e rest ih =>
    intro acc hacc hl r hr
    rcases List.mem_cons.mp hr with hr | hr
    · subst hr
      have := hl e (List.mem_cons_self e rest)
      simp only
      linarith
    · have he := hl e (List.mem_cons_self e rest)
      exact ih (acc + e.2) (by linarith)
        (fun x hx => hl x (List.mem_cons_of_mem e hx)) r hr

lemma cumRows_chain (l : List (ℚ × ℚ)) :
    ∀ acc : ℚ, (∀ e ∈ l, 0 ≤ e.2) →
      List.Chain' (fun r s : OrderBookLevel => r.total ≤ s.total) (cumRows acc l) := by
  induction l with
  | nil => intro acc _; simp [cumRows]
  | cons e rest ih =>
    intro acc h
    have h2 := ih (acc + e.2) (fun x hx => h x (List.mem_cons_of_mem e hx))
    rw [cumRows, List.chain'_cons']
    refine ⟨?_, h2⟩
    intro y hy
    cases rest with
    | nil => simp [cumRows] at hy
    | cons e2 rest2 =>
      simp only [cumRows, List.head?_cons, Option.mem_def, Option.some.injEq] at hy
      subst hy
      have := h e2 (List.mem_cons_of_mem e (List.mem_cons_self e2 rest2))
      simp only
      linarith

lemma sortedBids_mem {bids : Side} {b : ℚ} {n : ℕ} {e : ℚ × ℚ}
    (he : e ∈ sortedBids bids b n) : e ∈ bids := by
  unfold sortedBids at he
  exact List.mem_of_mem_filter
    ((List.mergeSort_perm _ _).mem_iff.mp (List.mem_of_mem_take he))

lemma sortedAsks_mem {asks : Side} {a : ℚ} {n : ℕ} {e : ℚ × ℚ}
    (he : e ∈ sortedAsks asks a n) : e ∈ asks := by
  unfold sortedAsks at he
  exact List.mem_of_mem_filter
    ((List.mergeSort_perm _ _).mem_iff.mp (List.mem_of_mem_take he))

lemma sortedBids_length (bids : Side) (b : ℚ) (n : ℕ) :
    (sortedBids bids b n).length ≤ n := by
  simp only [sortedBids, List.length_take]
  exact inf_le_left

lemma sortedAsks_length (asks : Side) (a : ℚ) (n : ℕ) :
    (sortedAsks asks a n).length ≤ n := by
  simp only [sortedAsks, List.length_take]
  exact inf_le_left

lemma sortedBids_pairwise (bids : Side) (b : ℚ) (n : ℕ) (h : sideKeysNodup bids) :
    (sortedBids bids b n).Pairwise (fun x y => y.1 < x.1) := by
  have hsorted : ((bids.filter (fun e => decide (b - 1000000 ≤ e.1))).mergeSort
      (fun x y => decide (y.1 ≤ x.1))).Pairwise (fun x y : ℚ × ℚ => y.1 ≤ x.1) := by
    have hs := @List.sorted_mergeSort (ℚ × ℚ)
      (fun x y => decide (y.1 ≤ x.1))
      (fun u v w huv hvw => by
        simp only [decide_eq_true_eq] at *
        exact le_trans hvw huv)
      (fun u v => by
        simp only [Bool.or_eq_true, decide_eq_true_eq]
        exact le_total v.1 u.1)
      (bids.filter (fun e => decide (b - 1000000 ≤ e.1)))
    exact hs.imp (fun hab => by simpa only [decide_eq_true_eq] using hab)
  have hnd1 : ((bids.filter (fun e => decide (b - 1000000 ≤ e.1))).map Prod.fst).Nodup :=
    ((List.filter_sublist bids).map Prod.fst).nodup h
  have hnd2 : (((bids.filter (fun e => decide (b - 1000000 ≤ e.1))).mergeSort
      (fun x y => decide (y.1 ≤ x.1))).map Prod.fst).Nodup :=
    (((List.mergeSort_perm _ _).map Prod.fst).symm).nodup hnd1
  have hne : ((bids.filter (fun e => decide (b - 1000000 ≤ e.1))).mergeSort
      (fun x y => decide (y.1 ≤ x.1))).Pairwise (fun x y : ℚ × ℚ => x.1 ≠ y.1) :=
    List.pairwise_map.mp hnd2
  have hstrict := (hsorted.and hne).imp
    (fun hab => lt_of_le_of_ne hab.1 (Ne.symm hab.2))
  exact List.Pairwise.sublist (List.take_sublist n _) hstrict

lemma sortedAsks_pairwise (asks : Side) (a : ℚ) (n : ℕ) (h : sideKeysNodup asks) :
    (sortedAsks asks a n).Pairwise (fun x y => x.1 < y.1) := by
  have hsorted : ((asks.filter (fun e => decide (e.1 ≤ a + 1000000))).mergeSort
      (fun x y => decide (x.1 ≤ y.1))).Pairwise (fun x y : ℚ × ℚ => x.1 ≤ y.1) := by
    have hs := @List.sorted_mergeSort (ℚ × ℚ)
      (fun x y => decide (x.1 ≤ y.1))
      (fun u v w huv hvw => by
        simp only [decide_eq_true_eq] at *
        exact le_trans huv hvw)
      (fun u v => by
        simp only [Bool.or_eq_true, decide_eq_true_eq]
        exact le_total u.1 v.1)
      (asks.filter (fun e => decide (e.1 ≤ a + 1000000)))
    exact hs.imp (fun hab => by simpa only [decide_eq_true_eq] using hab)
  have hnd1 : ((asks.filter (fun e => decide (e.1 ≤ a + 1000000))).map Prod.fst).Nodup :=
    ((List.filter_sublist asks).map Prod.fst).nodup h
  have hnd2 : (((asks.filter (fun e => decide (e.1 ≤ a + 1000000))).mergeSort
      (fun x y => decide (x.1 ≤ y.1))).map Prod.fst).Nodup :=
    (((List.mergeSort_perm _ _).map Prod.fst).symm).nodup hnd1
  have hne : ((asks.filter (fun e => decide (e.1 ≤ a + 1000000))).mergeSort
      (fun x y => decide (x.1 ≤ y.1))).Pairwise (fun x y : ℚ × ℚ => x.1 ≠ y.1) :=
    List.pairwise_map.mp hnd2
  have hstrict := (hsorted.and hne).imp
    (fun hab => lt_of_le_of_ne hab.1 hab.2)
  exact List.Pairwise.sublist (List.take_sublist n _) hstrict

lemma cumRows_pairwise {R : ℚ → ℚ → Prop} (l : List (ℚ × ℚ)) (acc : ℚ)
    (h : l.Pairwise (fun x y => R x.1 y.1)) :
    (cumRows acc l).Pairwise (fun r s => R r.price s.price) := by
  have hm : ((cumRows acc l).map OrderBookLevel.price).Pairwise R := by
    rw [cumRows_price_map]
    exact List.pairwise_map.mpr h
  exact List.pairwise_map.mp hm

lemma lastTotalOrOne_pos (l : List (ℚ × ℚ)) (hl : ∀ e ∈ l, 0 < e.2) :
    0 < lastTotalOrOne (cumRows 0 l) := by
  by_cases hne : cumRows 0 l = []
  · simp [lastTotalOrOne, hne]
  · have hlast := List.getLast?_eq_getLast (cumRows 0 l) hne
    have hmem : (cumRows 0 l).getLast hne ∈ cumRows 0 l := List.getLast_mem hne
    have hpos := cumRows_total_pos l 0 le_rfl hl _ hmem
    simpa [lastTotalOrOne, hlast] using hpos

lemma flushView_cases (bids asks : Side) (tb ta : ℚ) (n : ℕ) :
    flushView bids asks tb ta n = emptyProcessed
    ∨ (∃ b a, flushView bids asks tb ta n = quoteFallback b a)
    ∨ (∃ s sp m, flushView bids asks tb ta n =
        ⟨cumRows 0 (sortedBids bids (bestBidOf bids) n),
         cumRows 0 (sortedAsks asks (bestAskOf asks) n),
         lastTotalOrOne (cumRows 0 (sortedBids bids (bestBidOf bids) n)),
         lastTotalOrOne (cumRows 0 (sortedAsks asks (bestAskOf asks) n)),
         s, sp, m⟩) := by
  simp only [flushView]
  split
  · exact Or.inl rfl
  · split
    · split
      · exact Or.inr (Or.inl ⟨tb, ta, rfl⟩)
      · exact Or.inl rfl
    · split
      · exact Or.inl rfl
      · exact Or.inr (Or.inr ⟨_, _, _, rfl⟩)

/-! ## C5 -/

/-- C5: any projection built by flushView has bid rows strictly
descending by price and ask rows strictly ascending, each side truncated
to at most the configured row count, cumulative totals where every row
adds its own amount to the previous total (the first row total is its own
amount), totals non-decreasing down each side for a book of non-negative
quantities, and maxBidTotal and maxAskTotal equal to the last row total
of their side whenever that side has rows. -/
theorem flushView_rows_properties (bids asks : Side) (tb ta : ℚ) (n : ℕ)
    (hbn : sideKeysNodup bids) (han : sideKeysNodup asks)
    (hbp : ∀ e ∈ bids, 0 ≤ e.2) (hap : ∀ e ∈ asks, 0 ≤ e.2) :
    (flushView bids asks tb ta n).bids.Pairwise (fun r s => s.price < r.price)
    ∧ (flushView bids asks tb ta n).asks.Pairwise (fun r s => r.price < s.price)
    ∧ (flushView bids asks tb ta n).bids.length ≤ n
    ∧ (flushView bids asks tb ta n).asks.length ≤ n
    ∧ cumulativeOk 0 (flushView bids asks tb ta n).bids
    ∧ cumulativeOk 0 (flushView bids asks tb ta n).asks
    ∧ List.Chain' (fun r s => r.total ≤ s.total) (flushView bids asks tb ta n).bids
    ∧ List.Chain' (fun r s => r.total ≤ s.total) (flushView bids asks tb ta n).asks
    ∧ (∀ h : (flushView bids asks tb ta n).bids ≠ [],
        (flushView bids asks tb ta n).maxBidTotal =
          ((flushView bids asks tb ta n).bids.getLast h).total)
    ∧ (∀ h : (flushView bids asks tb ta n).asks ≠ [],
        (flushView bids asks tb ta n).maxAskTotal =
          ((flushView bids asks tb ta n).asks.getLast h).total) := by
  obtain h | ⟨b, a, h⟩ | ⟨s, sp, m, h⟩ := flushView_cases bids asks tb ta n <;> rw [h]
  · simp [emptyProcessed, cumulativeOk]
  · simp [quoteFallback, cumulativeOk]
  · refine ⟨?_, ?_, ?_, ?_, ?_, ?_, ?_, ?_, ?_, ?_⟩
    · exact cumRows_pairwise (R := fun p q => q < p) _ _
        (sortedBids_pairwise bids _ n hbn)
    · exact cumRows_pairwise (R := fun p q => p < q) _ _
        (sortedAsks_pairwise asks _ n han)
    · simp only [cumRows_length]
      exact sortedBids_length _ _ _
    · simp only [cumRows_length]
      exact sortedAsks_length _ _ _
    · exact cumulativeOk_cumRows _ _
    · exact cumulativeOk_cumRows _ _
    · exact cumRows_chain _ _ (fun e he => hbp e (sortedBids_mem he))
    · exact cumRows_chain _ _ (fun e he => hap e (sortedAsks_mem he))
    · intro hne
      simp [lastTotalOrOne, List.getLast?_eq_getLast _ hne]
    · intro hne
      simp [lastTotalOrOne, List.getLast?_eq_getLast _ hne]

/-- Witness for C5: the hypotheses hold at a concrete two-level bid book
and the projection satisfies the cumulative-total discipline. -/
theorem flushView_rows_properties_witness :
    sideKeysNodup ([((100 : ℚ), (1 : ℚ)), (99, 2)] : Side)
    ∧ cumulativeOk 0
        (flushView [((100 : ℚ), (1 : ℚ)), (99, 2)] [((101 : ℚ), (3 : ℚ))] 0 0 20).bids
    ∧ (flushView [((100 : ℚ), (1 : ℚ)), (99, 2)] [((101 : ℚ), (3 : ℚ))] 0 0 20).bids.Pairwise
        (fun r s => s.price < r.price) := by
  have hbn : sideKeysNodup ([((100 : ℚ), (1 : ℚ)), (99, 2)] : Side) := by
    unfold sideKeysNodup; decide
  have han : sideKeysNodup ([((101 : ℚ), (3 : ℚ))] : Side) := by
    unfold sideKeysNodup; decide
  have h := flushView_rows_properties [((100 : ℚ), (1 : ℚ)), (99, 2)]
    [((101 : ℚ), (3 : ℚ))] 0 0 20 hbn han (by decide) (by decide)
  exact ⟨hbn, h.2.2.2.2.1, h.1⟩

/-! ## C6 -/

/-- C6: flushView degrades instead of emitting bad data: an empty side
yields the all-empty projection with zero spread, spread percent and mid;
a non-positive locally computed spread falls back to the cached best
quote, emitting the quote-only projection when the quote has ask above
bid and the empty projection otherwise; and a spread percent above the 10
percent ceiling yields the empty projection.  In the rational model every
isFinite guard of the source holds identically. -/
theorem flushView_degrades (bids asks : Side) (tb ta : ℚ) (n : ℕ) :
    (bids = [] ∨ asks = [] → flushView bids asks tb ta n = emptyProcessed)
    ∧ (bids ≠ [] → asks ≠ [] → bestAskOf asks - bestBidOf bids ≤ 0 →
        (tb < ta → flushView bids asks tb ta n = quoteFallback tb ta)
        ∧ (¬ tb < ta → flushView bids asks tb ta n = emptyProcessed))
    ∧ (bids ≠ [] → asks ≠ [] → 0 < bestAskOf asks - bestBidOf bids →
        10 < spreadPercentOf (bestBidOf bids) (bestAskOf asks) →
        flushView bids asks tb ta n = emptyProcessed)
    ∧ emptyProcessed = ⟨[], [], 1, 1, 0, 0, 0⟩
    ∧ (∀ b a : ℚ, quoteFallback b a =
        ⟨[], [], 1, 1, a - b,
          if 0 < (a + b) / 2 then (a - b) / ((a + b) / 2) * 100 else 0,
          (a + b) / 2⟩) := by
  refine ⟨?_, ?_, ?_, rfl, fun b a => rfl⟩
  · intro h
    have hlen : bids.length = 0 ∨ asks.length = 0 := by
      rcases h with h | h <;> simp [h]
    simp only [flushView]
    rw [if_pos hlen]
  · intro hb ha hsp
    have hlen : ¬(bids.length = 0 ∨ asks.length = 0) := by
      simp [List.length_eq_zero, hb, ha]
    constructor
    · intro hq
      simp only [flushView]
      rw [if_neg hlen, if_pos hsp, if_pos hq]
    · intro hq
      simp only [flushView]
      rw [if_neg hlen, if_pos hsp, if_neg hq]
  · intro hb ha hsp hpc
    have hlen : ¬(bids.length = 0 ∨ asks.length = 0) := by
      simp [List.length_eq_zero, hb, ha]
    simp only [flushView]
    rw [if_neg hlen, if_neg (not_le.mpr hsp), if_pos hpc]

/-- Witness for C6: an empty bid side yields the empty projection, and a
crossed local book with a sane cached quote yields the quote-only
projection. -/
theorem flushView_degrades_witness :
    flushView [] [((101 : ℚ), (1 : ℚ))] 0 0 10 = emptyProcessed
    ∧ flushView [((100 : ℚ), (1 : ℚ))] [((100 : ℚ), (1 : ℚ))] 100 101 10 =
        quoteFallback 100 101 := by
  constructor
  · exact (flushView_degrades [] [((101 : ℚ), (1 : ℚ))] 0 0 10).1 (Or.inl rfl)
  · refine ((flushView_degrades [((100 : ℚ), (1 : ℚ))] [((100 : ℚ), (1 : ℚ))]
      100 101 10).2.1 (by simp) (by simp) ?_).1 (by decide)
    simp [bestBidOf, bestAskOf, listMax, listMin]

/-! ## C10 -/

/-- C10: for a book whose stored quantities are positive, every
projection flushView emits has a positive (hence non-zero) maxBidTotal
and maxAskTotal: the degraded branches default both to 1 and the main
branch uses the last cumulative total, which is a sum of positive
amounts; the OrderRow depth percentage therefore always divides by a
non-zero value and its guard takes the division branch. -/
theorem flushView_maxTotals_positive (bids asks : Side) (tb ta : ℚ) (n : ℕ)
    (hbp : ∀ e ∈ bids, 0 < e.2) (hap : ∀ e ∈ asks, 0 < e.2) :
    0 < (flushView bids asks tb ta n).maxBidTotal
    ∧ 0 < (flushView bids asks tb ta n).maxAskTotal
    ∧ (flushView bids asks tb ta n).maxBidTotal ≠ 0
    ∧ (flushView bids asks tb ta n).maxAskTotal ≠ 0
    ∧ (∀ t : ℚ, orderRowPercentage t (flushView bids asks tb ta n).maxBidTotal =
        t / (flushView bids asks tb ta n).maxBidTotal * 100)
    ∧ (∀ t : ℚ, orderRowPercentage t (flushView bids asks tb ta n).maxAskTotal =
        t / (flushView bids asks tb ta n).maxAskTotal * 100) := by
  have hbid : 0 < (flushView bids asks tb ta n).maxBidTotal := by
    obtain h | ⟨b, a, h⟩ | ⟨s, sp, m, h⟩ := flushView_cases bids asks tb ta n <;> rw [h]
    · norm_num [emptyProcessed]
    · norm_num [quoteFallback]
    · exact lastTotalOrOne_pos _ (fun e he => hbp e (sortedBids_mem he))
  have hask : 0 < (flushView bids asks tb ta n).maxAskTotal := by
    obtain h | ⟨b, a, h⟩ | ⟨s, sp, m, h⟩ := flushView_cases bids asks tb ta n <;> rw [h]
    · norm_num [emptyProcessed]
    · norm_num [quoteFallback]
    · exact lastTotalOrOne_pos _ (fun e he => hap e (sortedAsks_mem he))
  refine ⟨hbid, hask, ne_of_gt hbid, ne_of_gt hask, ?_, ?_⟩
  · intro t
    simp only [orderRowPercentage, if_pos hbid]
  · intro t
    simp only [orderRowPercentage, if_pos hask]

/-- Witness for C10: at a concrete one-level book with positive
quantities both max totals are positive. -/
theorem flushView_maxTotals_positive_witness :
    (∀ e ∈ ([((100 : ℚ), (1 : ℚ))] : Side), 0 < e.2)
    ∧ 0 < (flushView [((100 : ℚ), (1 : ℚ))] [((101 : ℚ), (2 : ℚ))] 0 0 5).maxBidTotal
    ∧ 0 < (flushView [((100 : ℚ), (1 : ℚ))] [((101 : ℚ), (2 : ℚ))] 0 0 5).maxAskTotal := by
  have h := flushView_maxTotals_positive [((100 : ℚ), (1 : ℚ))]
    [((101 : ℚ), (2 : ℚ))] 0 0 5 (by decide) (by decide)
  exact ⟨by decide, h.1, h.2.1⟩

/-! ## C3 -/

lemma flushView_example_eval :
    flushView [((100 : ℚ), (1 : ℚ))] [((101 : ℚ), (2 : ℚ))] 0 0 5 =
      ⟨[⟨100, 1, 1⟩], [⟨101, 2, 2⟩], 1, 2, 1, spreadPercentOf 100 101,
        (101 + 100) / 2⟩ := by
  simp only [flushView, bestBidOf, bestAskOf, listMax, listMin, List.map_cons,
    List.map_nil, List.foldl_cons, List.foldl_nil]
  rw [if_neg (by simp), if_neg (by norm_num), if_neg (by norm_num [spreadPercentOf])]
  norm_num [sortedBids, sortedAsks, List.mergeSort_singleton, cumRows,
    lastTotalOrOne, List.filter_cons, List.filter_nil]

/-- C3 counterexample: with tick size 0.01 and multiplier 5 the claim
says bid 100.237 is emitted in the 100.20 bucket and ask 100.264 in the
100.30 bucket; flushView performs no bucketing at all, emitting the raw
prices 100.237 and 100.264 unchanged. -/
theorem flushView_no_grouping_counterexample :
    (flushView [((100237/1000 : ℚ), (1 : ℚ))] [((100264/1000 : ℚ), (2 : ℚ))]
        0 0 20).bids.map OrderBookLevel.price = [100237/1000]
    ∧ (flushView [((100237/1000 : ℚ), (1 : ℚ))] [((100264/1000 : ℚ), (2 : ℚ))]
        0 0 20).asks.map OrderBookLevel.price = [100264/1000]
    ∧ (100237/1000 : ℚ) ≠ 1002/10
    ∧ (100264/1000 : ℚ) ≠ 1003/10 := by
  have heval : flushView [((100237/1000 : ℚ), (1 : ℚ))] [((100264/1000 : ℚ), (2 : ℚ))]
      0 0 20 =
      ⟨[⟨100237/1000, 1, 1⟩], [⟨100264/1000, 2, 2⟩], 1, 2,
        100264/1000 - 100237/1000,
        spreadPercentOf (100237/1000) (100264/1000),
        (100264/1000 + 100237/1000) / 2⟩ := by
    simp only [flushView, bestBidOf, bestAskOf, listMax, listMin, List.map_cons,
      List.map_nil, List.foldl_cons, List.foldl_nil]
    rw [if_neg (by simp), if_neg (by norm_num), if_neg (by norm_num [spreadPercentOf])]
    norm_num [sortedBids, sortedAsks, List.mergeSort_singleton, cumRows,
      lastTotalOrOne, List.filter_cons, List.filter_nil]
  refine ⟨by simp [heval], by simp [heval], by norm_num, by norm_num⟩

/-- C3 amended: flushView performs no price bucketing: there is no
grouping step derived from tick size or a grouping multiplier anywhere in
the projection; every emitted row carries a price and amount present
verbatim in the corresponding book side, the pipeline being only filter,
sort and truncate. -/
theorem flushView_no_bucketing (bids asks : Side) (tb ta : ℚ) (n : ℕ) :
    (∀ r ∈ (flushView bids asks tb ta n).bids, (r.price, r.amount) ∈ bids)
    ∧ (∀ r ∈ (flushView bids asks tb ta n).asks, (r.price, r.amount) ∈ asks) := by
  obtain h | ⟨b, a, h⟩ | ⟨s, sp, m, h⟩ := flushView_cases bids asks tb ta n <;> rw [h]
  · simp [emptyProcessed]
  · simp [quoteFallback]
  · constructor
    · intro r hr
      exact sortedBids_mem (cumRows_mem _ _ _ hr)
    · intro r hr
      exact sortedAsks_mem (cumRows_mem _ _ _ hr)

/-- Witness for C3: the single emitted bid row of a concrete book carries
exactly the stored price and amount. -/
theorem flushView_no_bucketing_witness :
    (⟨100, 1, 1⟩ : OrderBookLevel) ∈
      (flushView [((100 : ℚ), (1 : ℚ))] [((101 : ℚ), (2 : ℚ))] 0 0 5).bids
    ∧ ((100 : ℚ), (1 : ℚ)) ∈ ([((100 : ℚ), (1 : ℚ))] : Side) := by
  refine ⟨by simp [flushView_example_eval], ?_⟩
  exact (flushView_no_bucketing [((100 : ℚ), (1 : ℚ))] [((101 : ℚ), (2 : ℚ))]
    0 0 5).1 ⟨100, 1, 1⟩ (by simp [flushView_example_eval])
